import Mathlib

/-
Verification development for the flow-geometry and particle-trip engine of
the food-system digital-twin website (src/src/hooks/useFlows.ts).

Numbers are modelled as rationals (ℚ); JavaScript `Math.round`/`Math.floor`
become explicit integer operations; the ambient `Math.random()` source is an
injected stream `rand : ℕ → ℚ` consumed in call order, as §9 of the design
notes prescribes for a testable reimplementation.  External library calls
(turf `distance`/`circle`, google-polyline `decode`, the bezier spline) are
injected as function parameters, since they are collaborators outside the
repository; repository utilities that are imported from `src/utils` but whose
source is not included (`getStats`, `getDistances`, the colour table) are
modelled from the spec, as flagged in their doc comments.
-/

namespace FoodTwin

/-- A longitude/latitude coordinate pair, `[lon, lat]` in the source. -/
abbrev Coord := ℚ × ℚ

/-- Waypoint: a sample point on a path with an assigned timestamp
(`{ coordinates, timestamp }` in `getPathTrips`). -/
structure Waypoint where
  coordinates : Coord
  timestamp : ℚ
deriving DecidableEq, Repr

/-- Trip: one simulated particle (`{ waypoints, color, foodGroup }` pushed by
`getPathTrips`).  The category label is represented by its index into the
externally defined `CATEGORIES` table, which lives outside `src/`. -/
structure Trip where
  waypoints : List Waypoint
  color : List ℕ
  foodGroup : ℕ
deriving DecidableEq, Repr

/-- Path: `{ coordinates, distances, totalDistance }` as produced by the path
synthesizers in `useFlows.ts`. -/
structure Path where
  coordinates : List Coord
  distances : List ℚ
  totalDistance : ℚ
deriving DecidableEq, Repr

/-- Flow: the canonical flow entity returned by `useFlows`
(`{ source, target, sourceId, targetId, routeGeometry, value,
valuesRatiosByFoodGroup }`).  The route geometry keeps only its coordinate
list. -/
structure Flow where
  sourceId : String
  targetId : String
  source : Coord
  target : Coord
  value : ℚ
  routeGeometry : Option (List Coord)
  valuesRatiosByFoodGroup : Option (List ℚ)
deriving DecidableEq, Repr

/-- Raw joined flow record (`RawCountyWithFlows`): the per-category magnitude
breakdowns are kept as plain magnitude lists, which is all `getStats`
consumes. -/
structure RawCountyWithFlows where
  county_id : String
  county_centroid : Coord
  route_geometry : Option String
  route_direction : Option String
  flowsByCrop : List ℚ
  flowsByCropGroup : List ℚ
deriving DecidableEq, Repr

/-- Tunable parameters of `getCurvedPaths`, with the defaults of its
signature. -/
structure CurvedParams where
  linesPerLinkMultiplicator : ℚ := 1
  maxLinesPerLink : ℚ := 30
  minWaypointsPer1000km : ℚ := 4
  maxWaypointsPer1000km : ℚ := 8
  minDeviationDegrees : ℚ := 0
  maxDeviationDegrees : ℚ := 3/5
  smooth : Bool := false
deriving DecidableEq, Repr

/-- Tunable parameters of `getPathTrips`, with the defaults of its
signature. -/
structure TripParams where
  numParticlesMultiplicator : ℚ := 1
  fromTimestamp : ℚ := 0
  toTimeStamp : ℚ := 100
  intervalHumanize : ℚ := 1/2
  speedKps : ℚ := 100
  speedKpsHumanize : ℚ := 1/2
  maxParticles : ℚ := 500
deriving DecidableEq, Repr

/-- JavaScript `Math.round`: round half towards positive infinity. -/
def jsRound (q : ℚ) : ℤ := ⌊q + 1/2⌋

/-- Number of iterations of a JavaScript loop `for (let i = 0; i < q; i++)`
with a (possibly fractional, possibly negative) numeric bound `q`. -/
def jsLoopCount (q : ℚ) : ℕ := ⌈q⌉.toNat

/-- Modelled from the spec: `getDistances` is imported from `src/utils`,
which is not included under `src/`.  §4.1 (`accumulateDistances`): for a
coordinate sequence of length N it returns the N−1 consecutive segment
distances (each the geodesic distance between neighbouring coordinates,
here the injected turf `distFn`) together with their sum, and handles
N ≤ 1 by returning an empty list and total 0. -/
def getDistances (distFn : Coord → Coord → ℚ) : List Coord → List ℚ × ℚ
  | [] => ([], 0)
  | [_] => ([], 0)
  | a :: b :: rest =>
    let t := getDistances distFn (b :: rest)
    (distFn a b :: t.1, distFn a b + t.2)

/-- Running partial sums of a list (used by the modelled `getStats`). -/
def cumulativeSums : List ℚ → ℚ → List ℚ
  | [], _ => []
  | x :: xs, acc => (acc + x) :: cumulativeSums xs (acc + x)

/-- Modelled from the spec: `getStats` is imported from `src/utils`, which is
not included under `src/`.  §4.3 (`computeStats`): it sums the magnitudes
across all categories to produce `total`, and produces the cumulative
distribution (non-decreasing partial sums divided by `total`) over the
ordered category groups; when `total = 0` it returns zeros instead of
dividing by zero. -/
def getStats (flowsByCropGroup flowsByCrop : List ℚ) : ℚ × List ℚ :=
  let total := flowsByCrop.sum
  let byCropGroupCumulative :=
    (cumulativeSums flowsByCropGroup 0).map
      (fun s => if total = 0 then 0 else s / total)
  (total, byCropGroupCumulative)

/-- The per-record normalization callback of `useFlows` (lines 48–104):
resolves source/target by flow type, normalizes the magnitude with
`Math.max(1, total / 200000000)`, decodes and pair-swaps the optional route
polyline (the decoder itself is the external google-polyline library,
injected as `decodePolyline`), and reverses it when the raw record's route
direction is `"backward"`. -/
def normalizeFlow (decodePolyline : String → List Coord) (flowType : String)
    (selectedId : String) (selectedCentroid : Coord)
    (r : RawCountyWithFlows) : Flow :=
  let stats := getStats r.flowsByCropGroup r.flowsByCrop
  let value := max 1 (stats.1 / 200000000)
  let source := if flowType = "consumer" then r.county_centroid else selectedCentroid
  let target := if flowType = "consumer" then selectedCentroid else r.county_centroid
  let sourceId := if flowType = "consumer" then r.county_id else selectedId
  let targetId := if flowType = "consumer" then selectedId else r.county_id
  let routeGeometry0 :=
    r.route_geometry.map (fun g => (decodePolyline g).map (fun q => (q.2, q.1)))
  let routeGeometry :=
    if r.route_direction = some "backward" then routeGeometry0.map List.reverse
    else routeGeometry0
  ⟨sourceId, targetId, source, target, value, routeGeometry, some stats.2⟩

/-- Straight-line position at parametric ratio `(j+1)/(nw+1)` between source
and target — the `midpoint` of the `getCurvedPaths` inner loop. -/
def straightMid (source target : Coord) (nw j : ℕ) : Coord :=
  let waypointRatio : ℚ := (1 / ((nw : ℚ) + 1)) * ((j : ℚ) + 1)
  (source.1 + (target.1 - source.1) * waypointRatio,
   source.2 + (target.2 - source.2) * waypointRatio)

/-- The deviation value of the `getCurvedPaths` inner loop:
`deviationSign * r * (maxDeviationDegrees - minDeviationDegrees)
+ minDeviationDegrees`, with the sign chosen by waypoint-index parity. -/
def devFormula (p : CurvedParams) (j : ℕ) (r : ℚ) : ℚ :=
  (if j % 2 = 0 then (1 : ℚ) else -1) * r *
      (p.maxDeviationDegrees - p.minDeviationDegrees) +
    p.minDeviationDegrees

/-- A displaced interior waypoint: the straight-line midpoint moved by
`deviation` along `(cos angle, -sin angle)` where `angle` is the source →
target `Math.atan2` bearing; `cs` holds that `(cos angle, sin angle)` pair. -/
def displacedWaypoint (source target : Coord) (cs : Coord) (nw j : ℕ)
    (dev : ℚ) : Coord :=
  let mid := straightMid source target nw j
  (dev * cs.1 + mid.1, -dev * cs.2 + mid.2)

/-- One interior waypoint of `getCurvedPaths` (lines 141–164), with `r` the
`Math.random()` draw of that iteration. -/
def mkCurvedWaypoint (p : CurvedParams) (source target : Coord) (cs : Coord)
    (nw j : ℕ) (r : ℚ) : Coord :=
  displacedWaypoint source target cs nw j (devFormula p j r)

/-- One iteration of the `getCurvedPaths` outer loop starting at random-stream
position `k`: draws the waypoint count, builds the interior waypoints (each
consuming one further random draw), assembles
`[source, ...waypoints, target]`, optionally smooths it with the external
`spline`, and attaches the distance table.  Returns the path together with
the next random-stream position. -/
def mkCurvedPathAt (distFn : Coord → Coord → ℚ) (unitDir : ℚ → ℚ → Coord)
    (spline : List Coord → List Coord) (rand : ℕ → ℚ) (link : Flow)
    (p : CurvedParams) (k : ℕ) : Path × ℕ :=
  let dist := distFn link.source link.target
  let minWaypoints := jsRound (dist / 1000 * p.minWaypointsPer1000km)
  let maxWaypoints := jsRound (dist / 1000 * p.maxWaypointsPer1000km)
  let numWaypointsZ := ⌊rand k * ((1 + maxWaypoints - minWaypoints : ℤ) : ℚ)⌋ + minWaypoints
  let nw := numWaypointsZ.toNat
  let cs := unitDir (link.target.1 - link.source.1) (link.target.2 - link.source.2)
  let waypoints := (List.range nw).map
    (fun j => mkCurvedWaypoint p link.source link.target cs nw j (rand (k + 1 + j)))
  let allWaypoints := link.source :: waypoints ++ [link.target]
  let coords := if p.smooth then spline allWaypoints else allWaypoints
  let dt := getDistances distFn coords
  (⟨coords, dt.1, dt.2⟩, k + 1 + nw)

/-- One step of the `getCurvedPaths` outer loop as a fold step over
`(paths so far, random-stream position)`. -/
def curvedStep (distFn : Coord → Coord → ℚ) (unitDir : ℚ → ℚ → Coord)
    (spline : List Coord → List Coord) (rand : ℕ → ℚ) (link : Flow)
    (p : CurvedParams) : List Path × ℕ → ℕ → List Path × ℕ :=
  fun acc _ =>
    let pk := mkCurvedPathAt distFn unitDir spline rand link p acc.2
    (acc.1 ++ [pk.1], pk.2)

/-- `getCurvedPaths` (lines 111–183): `numLinesPerLink =
Math.min(Math.round(link.value * linesPerLinkMultiplicator),
maxLinesPerLink)` curved paths, generated by the loop `mkCurvedPathAt`.
`unitDir dx dy` abstracts the pair `(Math.cos a, Math.sin a)` for
`a = Math.atan2 dy dx`, and `spline` the external `bezierSpline`. -/
def getCurvedPaths (distFn : Coord → Coord → ℚ) (unitDir : ℚ → ℚ → Coord)
    (spline : List Coord → List Coord) (rand : ℕ → ℚ) (link : Flow)
    (p : CurvedParams) : List Path :=
  let numLinesPerLink : ℚ :=
    min ((jsRound (link.value * p.linesPerLinkMultiplicator) : ℤ) : ℚ) p.maxLinesPerLink
  ((List.range (jsLoopCount numLinesPerLink)).foldl
    (curvedStep distFn unitDir spline rand link p) ([], 0)).1

/-- Modelled from the spec: the turf `circle` call of `getSelfPath` is an
external library function.  §4.4: it approximates the circle of the given
radius around the centre, sampled at `steps` boundary points, as a closed
ring (the first boundary point is repeated at the end).  `boundaryPoint
center radius k` abstracts turf's geodesic destination point at bearing
`k * 360 / steps`. -/
def turfCircleRing (boundaryPoint : Coord → ℚ → ℕ → Coord) (center : Coord)
    (radius : ℚ) (steps : ℕ) : List Coord :=
  let pts := (List.range steps).map (boundaryPoint center radius)
  pts ++ pts.take 1

/-- `getSelfPath` (lines 204–215): a single closed circular path of radius
30 km around the flow's source, sampled at 20 boundary points. -/
def getSelfPath (distFn : Coord → Coord → ℚ)
    (boundaryPoint : Coord → ℚ → ℕ → Coord) (link : Flow) : List Path :=
  let circleCoords := turfCircleRing boundaryPoint link.source 30 20
  let dt := getDistances distFn circleCoords
  [⟨circleCoords, dt.1, dt.2⟩]

/-- `getRoadPaths` (lines 218–229): a single path following the flow's route
geometry verbatim (empty coordinate list when the flow has none). -/
def getRoadPaths (distFn : Coord → Coord → ℚ) (link : Flow) : List Path :=
  let coords := link.routeGeometry.getD []
  let dt := getDistances distFn coords
  [⟨coords, dt.1, dt.2⟩]

/-- The category-sampling `reduce` of `getPathTrips` (lines 300–305), over the
index-annotated ratio list: keep the accumulator once set, otherwise record
the current index when the drawn ratio is strictly below the entry. -/
def categoryReduceGo (r : ℚ) : Option ℕ → List (ℕ × ℚ) → Option ℕ
  | acc, [] => acc
  | some a, _ :: rest => categoryReduceGo r (some a) rest
  | none, (i, ratio) :: rest =>
    categoryReduceGo r (if r < ratio then some i else none) rest

/-- The category index assigned by `getPathTrips`: the `reduce` above followed
by the falsy-zero fallback `|| 0` (which maps both `null` and a found index
`0` to `0`). -/
def categoryIndexOf (r : ℚ) (ratios : List ℚ) : ℕ :=
  (categoryReduceGo r none ratios.enum).getD 0

/-- The specification's description of category sampling, for comparison with
`categoryIndexOf`: the smallest index whose cumulative-share entry exceeds
the sample, if any. -/
def firstIndexExceeding (r : ℚ) : List ℚ → Option ℕ
  | [] => none
  | x :: xs => if r < x then some 0 else (firstIndexExceeding r xs).map (· + 1)

/-- The waypoint-building `reduce` of `getPathTrips` (lines 281–296), unrolled
over the coordinate list with the running `(index, accDistance)` state:
each coordinate gets timestamp `timestampStart + accDistance / totalDistance
* timestampDelta`, and the accumulated distance then advances by
`distances[index]`. -/
def tripWaypointsGo (ds : List ℚ) (total tStart tDelta : ℚ) :
    List Coord → ℕ → ℚ → List Waypoint
  | [], _, _ => []
  | c :: cs, i, accDistance =>
    ⟨c, tStart + accDistance / total * tDelta⟩ ::
      tripWaypointsGo ds total tStart tDelta cs (i + 1) (accDistance + ds.getD i 0)

/-- One particle of `getPathTrips` (loop body, lines 266–315), with `i` the
particle index; the three `Math.random()` draws of the iteration are
`rand (3*i)` (speed humanization), `rand (3*i+1)` (interval humanization)
and `rand (3*i+2)` (category sampling), matching the call order of the
source.  `palette` abstracts the external `CATEGORIES_PROPS` colour table
composed with `hexToRgb`. -/
def mkTrip (rand : ℕ → ℚ) (palette : ℕ → ℕ × ℕ × ℕ) (path : Path)
    (p : TripParams) (interval : ℚ) (ratios : List ℚ) (i : ℕ) : Trip :=
  let r1 := rand (3 * i)
  let humanizeSpeedKps := (r1 - 1/2) * 2 * p.speedKps * p.speedKpsHumanize
  let humanizedSpeedKps := p.speedKps + humanizeSpeedKps
  let baseDuration := path.totalDistance / humanizedSpeedKps
  let r2 := rand (3 * i + 1)
  let humanizeInterval := (r2 - 1/2) * 2 * interval * p.intervalHumanize
  let timestampStart := p.fromTimestamp + (i : ℚ) * interval + humanizeInterval
  let timestampEnd := timestampStart + baseDuration
  let timestampDelta := timestampEnd - timestampStart
  let waypoints := tripWaypointsGo path.distances path.totalDistance
    timestampStart timestampDelta path.coordinates 0 0
  let r3 := rand (3 * i + 2)
  let categoryIndex := categoryIndexOf r3 ratios
  let c := palette categoryIndex
  ⟨waypoints, [c.1, c.2.1, c.2.2, 255], categoryIndex⟩

/-- `getPathTrips` (lines 241–317): `numParticles = Math.min(flow.value *
numParticlesMultiplicator, maxParticles)` — never rounded — particles; an
iteration whose flow has no `valuesRatiosByFoodGroup` pushes nothing
(`continue`). -/
def getPathTrips (rand : ℕ → ℚ) (palette : ℕ → ℕ × ℕ × ℕ) (path : Path)
    (flow : Flow) (p : TripParams) : List Trip :=
  let numParticles := min (flow.value * p.numParticlesMultiplicator) p.maxParticles
  let d := p.toTimeStamp - p.fromTimestamp
  let interval := d / numParticles
  (List.range (jsLoopCount numParticles)).filterMap
    (fun i =>
      match flow.valuesRatiosByFoodGroup with
      | none => none
      | some ratios => some (mkTrip rand palette path p interval ratios i))

/-- The specification's perpendicularity property for an interior curved
waypoint `c` with straight-line position `mid`: the displacement is
perpendicular to the source → target bearing. -/
def perpToBearing (source target mid c : Coord) : Prop :=
  (c.1 - mid.1) * (target.1 - source.1) + (c.2 - mid.2) * (target.2 - source.2) = 0

/-! Concrete instances used to exercise the definitions on explicit inputs. -/

/-- A deterministic random stream, constantly `1/2`, within `[0, 1)`. -/
def randHalf : ℕ → ℚ := fun _ => 1/2

/-- A constant 500 km geodesic distance oracle. -/
def distFn500 : Coord → Coord → ℚ := fun _ _ => 500

/-- The `(Math.cos a, Math.sin a)` pair for `a = Math.atan2 dy dx` of a due
east direction: `atan2 0 dx = 0` for `dx > 0`, so the pair is `(1, 0)`.
Used only with links whose source → target vector points due east. -/
def unitDirEast : ℚ → ℚ → Coord := fun _ _ => (1, 0)

/-- A due-east unit-magnitude flow from (0,0) to (1,0). -/
def linkEast : Flow := ⟨"a", "b", (0, 0), (1, 0), 1, none, none⟩

/-- A constant colour table. -/
def paletteGray : ℕ → ℕ × ℕ × ℕ := fun _ => (7, 8, 9)

/-- The defaults of the `getCurvedPaths` signature. -/
def curvedDefaults : CurvedParams := ⟨1, 30, 4, 8, 0, 3/5, false⟩

/-- The defaults of the `getPathTrips` signature. -/
def tripDefaults : TripParams := ⟨1, 0, 100, 1/2, 100, 1/2, 500⟩

/-- A due-east flow of normalized value 2. -/
def linkTwo : Flow := ⟨"a", "b", (0, 0), (1, 0), 2, none, none⟩

/-- A two-coordinate unit-length path. -/
def pathUnit : Path := ⟨[(0, 0), (1, 0)], [1], 1⟩

/-- A flow with a cumulative category distribution attached. -/
def flowRatios : Flow := ⟨"a", "b", (0, 0), (1, 0), 1, none, some [1/5, 1/2, 1]⟩

/-- A flow with fractional value `5/2` and a trivial category distribution. -/
def flowHalfExtra : Flow := ⟨"a", "b", (0, 0), (1, 0), 5/2, none, some [1]⟩

/-- A deterministic random stream, constantly `7/20 = 0.35`. -/
def rand35 : ℕ → ℚ := fun _ => 7/20

/-- A raw record with an encoded route traced backward. -/
def rawBackward : RawCountyWithFlows :=
  ⟨"06", (2, 3), some "enc", some "backward", [1], [1]⟩

/-- A polyline decoder stub returning two (lat, lng) pairs. -/
def decodeTwo : String → List Coord := fun _ => [(1, 2), (3, 4)]

/-- The default `Trip` used with `List.getD`. -/
def noTrip : Trip := ⟨[], [], 0⟩

/-- The default `Path` used with `List.getD` and `List.headD`. -/
def noPath : Path := ⟨[], [], 0⟩

/-! Helper lemmas. -/

theorem getD_zero_mem {α : Type} (l : List α) (d : α) (h : l ≠ []) :
    l.getD 0 d ∈ l := by
  cases l with
  | nil => exact absurd rfl h
  | cons a t => simp [List.getD]

theorem getD_nonneg (ds : List ℚ) (h : ∀ x ∈ ds, 0 ≤ x) (i : ℕ) :
    0 ≤ ds.getD i 0 := by
  induction ds generalizing i with
  | nil => simp [List.getD]
  | cons a t ih =>
    cases i with
    | zero => exact h a (List.mem_cons_self a t)
    | succ j => exact ih (fun x hx => h x (List.mem_cons_of_mem a hx)) j

theorem filterMap_some_eq_map {α β : Type} (g : α → β) (l : List α) :
    l.filterMap (fun a => some (g a)) = l.map g := by
  induction l with
  | nil => rfl
  | cons a t ih => simp [List.filterMap_cons, ih]

theorem filterMap_none_eq_nil {α β : Type} (l : List α) :
    l.filterMap (fun _ => (none : Option β)) = [] := by
  induction l with
  | nil => rfl
  | cons a t ih => simp [List.filterMap_cons, ih]

theorem jsLoopCount_intCast (z : ℤ) : jsLoopCount (z : ℚ) = z.toNat := by
  unfold jsLoopCount
  rw [Int.ceil_intCast]

theorem jsLoopCount_natCast (M : ℕ) : jsLoopCount (M : ℚ) = M := by
  have h := jsLoopCount_intCast (M : ℤ)
  rw [Int.cast_natCast] at h
  rw [h, Int.toNat_natCast]

theorem jsLoopCount_mono {a b : ℚ} (h : a ≤ b) : jsLoopCount a ≤ jsLoopCount b :=
  Int.toNat_le_toNat (Int.ceil_le_ceil h)

theorem curvedFold_length (dF : Coord → Coord → ℚ) (uD : ℚ → ℚ → Coord)
    (sp : List Coord → List Coord) (rand : ℕ → ℚ) (link : Flow) (p : CurvedParams)
    (l : List ℕ) :
    ∀ (ps : List Path) (k : ℕ),
      ((l.foldl (curvedStep dF uD sp rand link p) (ps, k)).1).length = ps.length + l.length := by
  induction l with
  | nil => intro ps k; simp
  | cons a t ih =>
    intro ps k
    simp only [List.foldl_cons, curvedStep]
    rw [ih]
    simp only [List.length_append, List.length_cons, List.length_nil]
    omega

theorem curvedFold_mem (dF : Coord → Coord → ℚ) (uD : ℚ → ℚ → Coord)
    (sp : List Coord → List Coord) (rand : ℕ → ℚ) (link : Flow) (p : CurvedParams)
    (l : List ℕ) :
    ∀ (ps : List Path) (k : ℕ) (x : Path),
      x ∈ (l.foldl (curvedStep dF uD sp rand link p) (ps, k)).1 →
        x ∈ ps ∨ ∃ k', x = (mkCurvedPathAt dF uD sp rand link p k').1 := by
  induction l with
  | nil => intro ps k x hx; exact Or.inl hx
  | cons a t ih =>
    intro ps k x hx
    simp only [List.foldl_cons, curvedStep] at hx
    rcases ih _ _ _ hx with h | h
    · rcases List.mem_append.mp h with h' | h'
      · exact Or.inl h'
      · exact Or.inr ⟨k, by simpa using h'⟩
    · exact Or.inr h

theorem getCurvedPaths_length (dF : Coord → Coord → ℚ) (uD : ℚ → ℚ → Coord)
    (sp : List Coord → List Coord) (rand : ℕ → ℚ) (link : Flow) (p : CurvedParams) :
    (getCurvedPaths dF uD sp rand link p).length =
      jsLoopCount (min ((jsRound (link.value * p.linesPerLinkMultiplicator) : ℤ) : ℚ)
        p.maxLinesPerLink) := by
  unfold getCurvedPaths
  rw [curvedFold_length]
  simp

theorem getCurvedPaths_mem (dF : Coord → Coord → ℚ) (uD : ℚ → ℚ → Coord)
    (sp : List Coord → List Coord) (rand : ℕ → ℚ) (link : Flow) (p : CurvedParams)
    (x : Path) (hx : x ∈ getCurvedPaths dF uD sp rand link p) :
    ∃ k, x = (mkCurvedPathAt dF uD sp rand link p k).1 := by
  unfold getCurvedPaths at hx
  rcases curvedFold_mem dF uD sp rand link p _ _ _ _ hx with h | h
  · simp at h
  · exact h

theorem getPathTrips_some (rand : ℕ → ℚ) (palette : ℕ → ℕ × ℕ × ℕ) (path : Path)
    (flow : Flow) (p : TripParams) (ratios : List ℚ)
    (hfg : flow.valuesRatiosByFoodGroup = some ratios) :
    getPathTrips rand palette path flow p =
      (List.range (jsLoopCount (min (flow.value * p.numParticlesMultiplicator)
          p.maxParticles))).map
        (mkTrip rand palette path p
          ((p.toTimeStamp - p.fromTimestamp) /
            min (flow.value * p.numParticlesMultiplicator) p.maxParticles) ratios) := by
  unfold getPathTrips
  simp only [hfg]
  exact filterMap_some_eq_map _ _

theorem getPathTrips_none (rand : ℕ → ℚ) (palette : ℕ → ℕ × ℕ × ℕ) (path : Path)
    (flow : Flow) (p : TripParams) (hfg : flow.valuesRatiosByFoodGroup = none) :
    getPathTrips rand palette path flow p = [] := by
  unfold getPathTrips
  simp only [hfg]
  exact filterMap_none_eq_nil _

theorem tripWaypointsGo_chain (ds : List ℚ) (total tStart tDelta : ℚ)
    (hds : ∀ x ∈ ds, 0 ≤ x) (ht : 0 < total) (hδ : 0 ≤ tDelta) :
    ∀ (cs : List Coord) (i : ℕ) (a : ℚ),
      List.Chain' (fun u v : Waypoint => u.timestamp ≤ v.timestamp)
        (tripWaypointsGo ds total tStart tDelta cs i a) := by
  intro cs
  induction cs with
  | nil => intro i a; simp [tripWaypointsGo]
  | cons c cs ih =>
    intro i a
    rw [tripWaypointsGo]
    refine List.chain'_cons'.mpr ⟨?_, ih (i + 1) (a + ds.getD i 0)⟩
    intro y hy
    cases cs with
    | nil => simp [tripWaypointsGo] at hy
    | cons c' cs' =>
      rw [tripWaypointsGo] at hy
      simp only [List.head?_cons, Option.mem_def, Option.some.injEq] at hy
      subst hy
      have hd : 0 ≤ ds.getD i 0 := getD_nonneg ds hds i
      have hdiv : a / total ≤ (a + ds.getD i 0) / total :=
        (div_le_div_iff_of_pos_right ht).mpr (by linarith)
      have hmul := mul_le_mul_of_nonneg_right hdiv hδ
      dsimp only
      linarith

theorem tripWaypointsGo_length (ds : List ℚ) (total tStart tDelta : ℚ) :
    ∀ (cs : List Coord) (i : ℕ) (a : ℚ),
      (tripWaypointsGo ds total tStart tDelta cs i a).length = cs.length := by
  intro cs
  induction cs with
  | nil => intro i a; simp [tripWaypointsGo]
  | cons c cs ih => intro i a; rw [tripWaypointsGo]; simp [ih]

theorem tripWaypointsGo_getD (ds : List ℚ) (total tStart tDelta : ℚ) :
    ∀ (cs : List Coord) (i : ℕ) (a : ℚ) (j : ℕ), j < cs.length →
      ((tripWaypointsGo ds total tStart tDelta cs i a).getD j ⟨(0, 0), 0⟩).timestamp =
        tStart +
          (a + Finset.sum (Finset.range j) (fun m => ds.getD (i + m) 0)) / total * tDelta := by
  intro cs
  induction cs with
  | nil => intro i a j hj; simp at hj
  | cons c cs ih =>
    intro i a j hj
    cases j with
    | zero =>
      simp only [tripWaypointsGo, List.getD_cons_zero]
      simp
    | succ j =>
      simp only [List.length_cons, Nat.succ_lt_succ_iff] at hj
      have h := ih (i + 1) (a + ds.getD i 0) j hj
      simp only [tripWaypointsGo, List.getD_cons_succ]
      rw [h]
      congr 2
      rw [Finset.sum_range_succ' (fun m => ds.getD (i + m) 0) j]
      have hshift : ∀ m : ℕ, ds.getD (i + (m + 1)) 0 = ds.getD (i + 1 + m) 0 := by
        intro m
        congr 1
        omega
      rw [Finset.sum_congr rfl (fun m _ => hshift m)]
      simp only [Nat.add_zero]
      ring

theorem categoryReduceGo_some (r : ℚ) (a : ℕ) :
    ∀ l : List (ℕ × ℚ), categoryReduceGo r (some a) l = some a := by
  intro l
  induction l with
  | nil => rfl
  | cons x t ih => rw [categoryReduceGo]; exact ih

theorem categoryReduceGo_enumFrom (r : ℚ) :
    ∀ (l : List ℚ) (n : ℕ),
      categoryReduceGo r none (l.enumFrom n) =
        (firstIndexExceeding r l).map (· + n) := by
  intro l
  induction l with
  | nil => intro n; rfl
  | cons x t ih =>
    intro n
    rw [List.enumFrom_cons, categoryReduceGo, firstIndexExceeding]
    by_cases hx : r < x
    · rw [if_pos hx, if_pos hx, categoryReduceGo_some]
      simp
    · rw [if_neg hx, if_neg hx, ih (n + 1), Option.map_map]
      cases firstIndexExceeding r t with
      | none => rfl
      | some m =>
        simp only [Option.map_some', Function.comp_apply, Option.some.injEq]
        omega

theorem categoryIndexOf_eq (r : ℚ) (ratios : List ℚ) :
    categoryIndexOf r ratios = (firstIndexExceeding r ratios).getD 0 := by
  unfold categoryIndexOf
  rw [show ratios.enum = ratios.enumFrom 0 from rfl, categoryReduceGo_enumFrom]
  cases firstIndexExceeding r ratios with
  | none => rfl
  | some m => simp

theorem humanizedSpeed_pos (speedKps h r1 : ℚ) (hsp : 0 < speedKps)
    (hh0 : 0 ≤ h) (hh1 : h < 1) (hr0 : 0 ≤ r1) :
    0 < speedKps + (r1 - 1/2) * 2 * speedKps * h := by
  nlinarith [mul_pos hsp (sub_pos.mpr hh1), mul_nonneg (mul_nonneg hr0 (le_of_lt hsp)) hh0]

theorem getD_map_range {α : Type} (f : ℕ → α) (n i : ℕ) (hi : i < n) (d : α) :
    ((List.range n).map f).getD i d = f i := by
  rw [List.getD_eq_getElem?_getD]
  simp [List.getElem?_map, List.getElem?_range, hi]

theorem mkTrip_waypoints (rand : ℕ → ℚ) (palette : ℕ → ℕ × ℕ × ℕ) (path : Path)
    (p : TripParams) (interval : ℚ) (ratios : List ℚ) (i : ℕ) :
    ∃ s δ : ℚ,
      (mkTrip rand palette path p interval ratios i).waypoints =
        tripWaypointsGo path.distances path.totalDistance s δ path.coordinates 0 0 ∧
      δ = path.totalDistance /
        (p.speedKps + (rand (3 * i) - 1/2) * 2 * p.speedKps * p.speedKpsHumanize) := by
  exact ⟨_, _, rfl, by ring⟩

theorem mkTrip_waypoints_nil (rand : ℕ → ℚ) (palette : ℕ → ℕ × ℕ × ℕ) (path : Path)
    (p : TripParams) (interval : ℚ) (ratios : List ℚ) (i : ℕ)
    (hc : path.coordinates = []) :
    (mkTrip rand palette path p interval ratios i).waypoints = [] := by
  unfold mkTrip
  dsimp only
  rw [hc]
  rfl

theorem jsLoopCount_one : jsLoopCount 1 = 1 := by
  unfold jsLoopCount
  rw [Int.ceil_one]
  rfl

theorem mkCurvedPathAt_coords (dF : Coord → Coord → ℚ) (uD : ℚ → ℚ → Coord)
    (sp : List Coord → List Coord) (rand : ℕ → ℚ) (link : Flow) (p : CurvedParams)
    (k : ℕ) (hsm : p.smooth = false) :
    ∃ nw : ℕ, (mkCurvedPathAt dF uD sp rand link p k).1.coordinates =
      link.source ::
        ((List.range nw).map (fun j => mkCurvedWaypoint p link.source link.target
          (uD (link.target.1 - link.source.1) (link.target.2 - link.source.2)) nw j
          (rand (k + 1 + j)))) ++ [link.target] := by
  refine ⟨(⌊rand k *
      ((1 + jsRound (dF link.source link.target / 1000 * p.maxWaypointsPer1000km) -
          jsRound (dF link.source link.target / 1000 * p.minWaypointsPer1000km) : ℤ) : ℚ)⌋ +
      jsRound (dF link.source link.target / 1000 * p.minWaypointsPer1000km)).toNat, ?_⟩
  unfold mkCurvedPathAt
  rw [hsm]
  rfl

/-! Claim theorems. -/

/-- C1: for a non-self flow in curved-synthetic mode, `getCurvedPaths` returns
exactly `K = min(round(flow.value * linesPerLinkMultiplicator),
maxLinesPerLink)` paths when that quantity is nonnegative and `0` paths
otherwise (expressed as `Int.toNat` of the min), and the number of paths
never exceeds `maxLinesPerLink` when the latter is a nonnegative integer. -/
theorem c1_curved_path_count (dF : Coord → Coord → ℚ) (uD : ℚ → ℚ → Coord)
    (sp : List Coord → List Coord) (rand : ℕ → ℚ) (link : Flow) (p : CurvedParams)
    (M : ℕ) (hM : p.maxLinesPerLink = (M : ℚ)) :
    (getCurvedPaths dF uD sp rand link p).length =
        (min (jsRound (link.value * p.linesPerLinkMultiplicator)) (M : ℤ)).toNat ∧
      (getCurvedPaths dF uD sp rand link p).length ≤ M := by
  have hlen := getCurvedPaths_length dF uD sp rand link p
  rw [hM] at hlen
  have hcast : min ((jsRound (link.value * p.linesPerLinkMultiplicator) : ℤ) : ℚ) ((M : ℚ)) =
      ((min (jsRound (link.value * p.linesPerLinkMultiplicator)) (M : ℤ) : ℤ) : ℚ) := by
    push_cast
    rfl
  rw [hcast, jsLoopCount_intCast] at hlen
  refine ⟨hlen, ?_⟩
  rw [hlen]
  calc (min (jsRound (link.value * p.linesPerLinkMultiplicator)) (M : ℤ)).toNat
      ≤ ((M : ℤ)).toNat := Int.toNat_le_toNat (min_le_right _ _)
    _ = M := Int.toNat_natCast M

/-- C1 witness: a flow of value 2 with `linesPerLinkMultiplicator = 1` and
`maxLinesPerLink = 30` yields exactly 2 curved paths. -/
theorem c1_curved_path_count_witness :
    (getCurvedPaths distFn500 unitDirEast (fun l => l) randHalf linkTwo curvedDefaults).length = 2 ∧
      (getCurvedPaths distFn500 unitDirEast (fun l => l) randHalf linkTwo curvedDefaults).length ≤ 30 := by
  have h := c1_curved_path_count distFn500 unitDirEast (fun l => l) randHalf linkTwo
    curvedDefaults 30 (by norm_num [curvedDefaults])
  refine ⟨h.1.trans ?_, h.2⟩
  norm_num [linkTwo, curvedDefaults, jsRound, show Int.toNat 2 = 2 from rfl]

/-- C3 (amended): each interior waypoint of a curved path (unsmoothed) is
displaced from its straight-line position by `devFormula` along the
direction `(cos angle, -sin angle)` — the source → target bearing reflected
across the longitude axis, not the perpendicular — with the random draw in
`[0, 1)`; when `minDeviationDegrees = 0` (the default) the deviation
magnitude is at most `maxDeviationDegrees` and its sign alternates by
waypoint index (even indices nonnegative, odd indices nonpositive). -/
theorem c3_deviation_direction (dF : Coord → Coord → ℚ) (uD : ℚ → ℚ → Coord)
    (sp : List Coord → List Coord) (rand : ℕ → ℚ) (link : Flow) (p : CurvedParams)
    (hsm : p.smooth = false) (hr : ∀ n, 0 ≤ rand n ∧ rand n < 1) :
    ∀ path ∈ getCurvedPaths dF uD sp rand link p,
      ∀ j, j + 2 < path.coordinates.length →
        ∃ r : ℚ, 0 ≤ r ∧ r < 1 ∧
          path.coordinates.getD (j + 1) (0, 0) =
            displacedWaypoint link.source link.target
              (uD (link.target.1 - link.source.1) (link.target.2 - link.source.2))
              (path.coordinates.length - 2) j (devFormula p j r) ∧
          (p.minDeviationDegrees = 0 → 0 ≤ p.maxDeviationDegrees →
            |devFormula p j r| ≤ p.maxDeviationDegrees ∧
            (j % 2 = 0 → 0 ≤ devFormula p j r) ∧
            (j % 2 = 1 → devFormula p j r ≤ 0)) := by
  intro path hmem j hj
  obtain ⟨k, rfl⟩ := getCurvedPaths_mem dF uD sp rand link p path hmem
  obtain ⟨nw, hco⟩ := mkCurvedPathAt_coords dF uD sp rand link p k hsm
  rw [hco] at hj ⊢
  simp only [List.length_cons, List.length_append, List.length_map, List.length_range,
    List.length_singleton, List.length_nil] at hj
  have hjnw : j < nw := by omega
  have hlen2 : (link.source ::
      ((List.range nw).map (fun j => mkCurvedWaypoint p link.source link.target
        (uD (link.target.1 - link.source.1) (link.target.2 - link.source.2)) nw j
        (rand (k + 1 + j)))) ++ [link.target]).length - 2 = nw := by
    simp
  rw [hlen2]
  refine ⟨rand (k + 1 + j), (hr (k + 1 + j)).1, (hr (k + 1 + j)).2, ?_, ?_⟩
  · rw [List.getD_append _ _ _ _ (by simp; omega), List.getD_cons_succ,
      getD_map_range _ _ _ hjnw]
    rfl
  · intro hmin hmax
    have hr0 := (hr (k + 1 + j)).1
    have hr1 := (hr (k + 1 + j)).2
    rcases Nat.mod_two_eq_zero_or_one j with hp | hp
    · have hdev : devFormula p j (rand (k + 1 + j)) =
          rand (k + 1 + j) * p.maxDeviationDegrees := by
        unfold devFormula
        rw [hmin, hp]
        norm_num
      rw [hdev]
      refine ⟨?_, fun _ => mul_nonneg hr0 hmax, fun hcon => ?_⟩
      · rw [abs_of_nonneg (mul_nonneg hr0 hmax)]
        exact mul_le_of_le_one_left hmax (le_of_lt hr1)
      · omega
    · have hdev : devFormula p j (rand (k + 1 + j)) =
          -(rand (k + 1 + j) * p.maxDeviationDegrees) := by
        unfold devFormula
        rw [hmin, hp]
        norm_num
      rw [hdev]
      refine ⟨?_, fun hcon => ?_, fun _ => neg_nonpos.mpr (mul_nonneg hr0 hmax)⟩
      · rw [abs_neg, abs_of_nonneg (mul_nonneg hr0 hmax)]
        exact mul_le_of_le_one_left hmax (le_of_lt hr1)
      · omega

/-- C3 (amended) witness: the first interior waypoint of the single curved
path of a unit due-east flow is displaced according to `devFormula` along
the reflected bearing, with the deviation bounds of the default
parameters. -/
theorem c3_deviation_direction_witness :
    ∃ r : ℚ, 0 ≤ r ∧ r < 1 ∧
      ((getCurvedPaths distFn500 unitDirEast (fun l => l) randHalf linkEast
          curvedDefaults).getD 0 noPath).coordinates.getD (0 + 1) (0, 0) =
        displacedWaypoint linkEast.source linkEast.target
          (unitDirEast (linkEast.target.1 - linkEast.source.1)
            (linkEast.target.2 - linkEast.source.2))
          (((getCurvedPaths distFn500 unitDirEast (fun l => l) randHalf linkEast
              curvedDefaults).getD 0 noPath).coordinates.length - 2) 0
          (devFormula curvedDefaults 0 r) ∧
      (curvedDefaults.minDeviationDegrees = 0 → 0 ≤ curvedDefaults.maxDeviationDegrees →
        |devFormula curvedDefaults 0 r| ≤ curvedDefaults.maxDeviationDegrees ∧
        (0 % 2 = 0 → 0 ≤ devFormula curvedDefaults 0 r) ∧
        (0 % 2 = 1 → devFormula curvedDefaults 0 r ≤ 0)) := by
  have hlist : getCurvedPaths distFn500 unitDirEast (fun l => l) randHalf linkEast
      curvedDefaults =
      [⟨[(0, 0), (11/20, 0), (1/5, 0), (21/20, 0), (1, 0)],
        [500, 500, 500, 500], 2000⟩] := by
    simp only [getCurvedPaths, linkEast, curvedDefaults]
    norm_num [jsLoopCount, jsRound, curvedStep, mkCurvedPathAt, distFn500, unitDirEast,
      randHalf, mkCurvedWaypoint, displacedWaypoint, devFormula, straightMid, getDistances,
      List.range_succ, Int.ceil_intCast, show Int.toNat 3 = 3 from rfl]
  have hmem : (getCurvedPaths distFn500 unitDirEast (fun l => l) randHalf linkEast
      curvedDefaults).getD 0 noPath ∈
      getCurvedPaths distFn500 unitDirEast (fun l => l) randHalf linkEast curvedDefaults := by
    apply getD_zero_mem
    intro hnil
    rw [hnil] at hlist
    simp at hlist
  have hj : 0 + 2 < ((getCurvedPaths distFn500 unitDirEast (fun l => l) randHalf linkEast
      curvedDefaults).getD 0 noPath).coordinates.length := by
    rw [hlist]
    simp [List.getD]
  exact c3_deviation_direction distFn500 unitDirEast (fun l => l) randHalf linkEast
    curvedDefaults rfl (fun n => ⟨by norm_num [randHalf], by norm_num [randHalf]⟩)
    _ hmem 0 hj

/-- C3 counterexample: for a due-east flow the displacement of the first
interior curved waypoint from its straight-line position is parallel to the
source → target bearing, not perpendicular to it — the claim's
perpendicularity fails at this concrete input. -/
theorem c3_perpendicular_counterexample :
    ¬ perpToBearing (0, 0) (1, 0) (straightMid (0, 0) (1, 0) 3 0)
      (((getCurvedPaths distFn500 unitDirEast (fun l => l) randHalf linkEast
          curvedDefaults).headD noPath).coordinates.getD 1 (0, 0)) := by
  simp only [getCurvedPaths, linkEast, curvedDefaults]
  norm_num [jsLoopCount, jsRound, curvedStep, mkCurvedPathAt, distFn500, unitDirEast,
    randHalf, mkCurvedWaypoint, displacedWaypoint, devFormula, straightMid, getDistances,
    List.range_succ, Int.ceil_intCast, show Int.toNat 3 = 3 from rfl, perpToBearing,
    noPath]

/-- C4: the normalized flow value equals `max(1, total / 200000000)` where
`total` is the aggregate magnitude computed by `getStats`; it is therefore
never below 1, and a zero (or missing, hence zero-sum) raw magnitude yields
exactly 1. -/
theorem c4_value_normalization (decode : String → List Coord) (flowType selId : String)
    (selC : Coord) (r : RawCountyWithFlows) :
    (normalizeFlow decode flowType selId selC r).value =
        max 1 ((getStats r.flowsByCropGroup r.flowsByCrop).1 / 200000000) ∧
      1 ≤ (normalizeFlow decode flowType selId selC r).value ∧
      ((getStats r.flowsByCropGroup r.flowsByCrop).1 = 0 →
        (normalizeFlow decode flowType selId selC r).value = 1) := by
  have h1 : (normalizeFlow decode flowType selId selC r).value =
      max 1 ((getStats r.flowsByCropGroup r.flowsByCrop).1 / 200000000) := rfl
  refine ⟨h1, ?_, ?_⟩
  · rw [h1]
    exact le_max_left 1 _
  · intro h0
    rw [h1, h0]
    norm_num

/-- C5: with an encoded route present, a `backward` route direction attaches
the pair-swapped decoded sequence in reversed order, while any other route
direction keeps the pair-swapped decoded order unchanged. -/
theorem c5_route_reversal (decode : String → List Coord) (flowType selId : String)
    (selC : Coord) (r : RawCountyWithFlows) (g : String)
    (hg : r.route_geometry = some g) :
    (r.route_direction = some "backward" →
        (normalizeFlow decode flowType selId selC r).routeGeometry =
          some (((decode g).map (fun q => (q.2, q.1))).reverse)) ∧
      (r.route_direction ≠ some "backward" →
        (normalizeFlow decode flowType selId selC r).routeGeometry =
          some ((decode g).map (fun q => (q.2, q.1)))) := by
  constructor
  · intro hdir
    unfold normalizeFlow
    simp [hg, hdir]
  · intro hdir
    unfold normalizeFlow
    simp [hg, hdir]

/-- C5 witness: decoding `[(1,2),(3,4)]` for a backward-traced route attaches
`[(4,3),(2,1)]` — pair-swapped and reversed. -/
theorem c5_route_reversal_witness :
    (normalizeFlow decodeTwo "consumer" "x" (0, 0) rawBackward).routeGeometry =
      some [(4, 3), (2, 1)] := by
  have h := c5_route_reversal decodeTwo "consumer" "x" (0, 0) rawBackward "enc" rfl
  rw [h.1 rfl]
  simp [decodeTwo]

/-- C7: for a nonnegative integer `maxParticles` bound, the number of trips
produced by `getPathTrips` is between 0 and `maxParticles` inclusive, and it
is exactly 0 whenever the flow has no `valuesRatiosByFoodGroup` (the absent
case is skipped silently). -/
theorem c7_trip_count_bounds (rand : ℕ → ℚ) (palette : ℕ → ℕ × ℕ × ℕ)
    (path : Path) (flow : Flow) (p : TripParams) (M : ℕ)
    (hM : p.maxParticles = (M : ℚ)) :
    (getPathTrips rand palette path flow p).length ≤ M ∧
      (flow.valuesRatiosByFoodGroup = none →
        (getPathTrips rand palette path flow p).length = 0) := by
  constructor
  · cases hfg : flow.valuesRatiosByFoodGroup with
    | none =>
      rw [getPathTrips_none rand palette path flow p hfg]
      simp
    | some ratios =>
      rw [getPathTrips_some rand palette path flow p ratios hfg]
      rw [List.length_map, List.length_range]
      calc jsLoopCount (min (flow.value * p.numParticlesMultiplicator) p.maxParticles)
          ≤ jsLoopCount p.maxParticles := jsLoopCount_mono (min_le_right _ _)
        _ = M := by rw [hM, jsLoopCount_natCast]
  · intro hfg
    rw [getPathTrips_none rand palette path flow p hfg]
    rfl

/-- C7 witness: with `maxParticles = 500` and a flow lacking category shares,
zero trips are produced (and the bound holds). -/
theorem c7_trip_count_bounds_witness :
    (getPathTrips randHalf paletteGray pathUnit linkEast tripDefaults).length ≤ 500 ∧
      (getPathTrips randHalf paletteGray pathUnit linkEast tripDefaults).length = 0 := by
  have h := c7_trip_count_bounds randHalf paletteGray pathUnit linkEast tripDefaults 500
    (by norm_num [tripDefaults])
  exact ⟨h.1, h.2 rfl⟩

/-- C10: when category shares are present and the particle bound is
nonnegative, the number of trips equals the ceiling of
`min(flow.value * numParticlesMultiplicator, maxParticles)` — the fractional
loop bound runs a ceiling number of iterations. -/
theorem c10_trip_count_ceiling (rand : ℕ → ℚ) (palette : ℕ → ℕ × ℕ × ℕ)
    (path : Path) (flow : Flow) (p : TripParams) (ratios : List ℚ)
    (hfg : flow.valuesRatiosByFoodGroup = some ratios)
    (h0 : 0 ≤ min (flow.value * p.numParticlesMultiplicator) p.maxParticles) :
    ((getPathTrips rand palette path flow p).length : ℤ) =
      ⌈min (flow.value * p.numParticlesMultiplicator) p.maxParticles⌉ := by
  rw [getPathTrips_some rand palette path flow p ratios hfg]
  rw [List.length_map, List.length_range]
  unfold jsLoopCount
  rw [Int.toNat_of_nonneg (Int.ceil_nonneg h0)]

/-- C10 witness: a flow of value `5/2` with multiplier 1 and bound 500 yields
`⌈5/2⌉ = 3` trips. -/
theorem c10_trip_count_ceiling_witness :
    ((getPathTrips randHalf paletteGray pathUnit flowHalfExtra tripDefaults).length : ℤ) = 3 := by
  have h := c10_trip_count_ceiling randHalf paletteGray pathUnit flowHalfExtra tripDefaults
    [1] rfl (by norm_num [flowHalfExtra, tripDefaults])
  rw [h]
  have hmin : min (flowHalfExtra.value * tripDefaults.numParticlesMultiplicator)
      tripDefaults.maxParticles = 5/2 := by
    norm_num [flowHalfExtra, tripDefaults]
  rw [hmin, Int.ceil_eq_iff]
  norm_num

/-- C6: each trip's category index is the smallest index whose cumulative
share entry exceeds the trip's uniform sample (index 0 when none exceeds
it), its colour is that category's RGB triple with 255 appended, and for
shares `[0.2, 0.5, 1.0]` with sample `0.35` index 1 is selected. -/
theorem c6_category_sampling (rand : ℕ → ℚ) (palette : ℕ → ℕ × ℕ × ℕ)
    (path : Path) (flow : Flow) (p : TripParams) (ratios : List ℚ)
    (hfg : flow.valuesRatiosByFoodGroup = some ratios)
    (i : ℕ) (hi : i < (getPathTrips rand palette path flow p).length) :
    ((getPathTrips rand palette path flow p).getD i noTrip).foodGroup =
        (firstIndexExceeding (rand (3 * i + 2)) ratios).getD 0 ∧
      ((getPathTrips rand palette path flow p).getD i noTrip).color =
        [(palette (((getPathTrips rand palette path flow p).getD i noTrip).foodGroup)).1,
         (palette (((getPathTrips rand palette path flow p).getD i noTrip).foodGroup)).2.1,
         (palette (((getPathTrips rand palette path flow p).getD i noTrip).foodGroup)).2.2,
         255] ∧
      categoryIndexOf (35/100) [2/10, 5/10, 1] = 1 := by
  rw [getPathTrips_some rand palette path flow p ratios hfg] at hi ⊢
  rw [List.length_map, List.length_range] at hi
  rw [getD_map_range _ _ _ hi]
  refine ⟨?_, rfl, ?_⟩
  · rw [show (mkTrip rand palette path p
        ((p.toTimeStamp - p.fromTimestamp) /
          min (flow.value * p.numParticlesMultiplicator) p.maxParticles) ratios i).foodGroup =
      categoryIndexOf (rand (3 * i + 2)) ratios from rfl]
    rw [categoryIndexOf_eq]
  · rw [categoryIndexOf_eq]
    norm_num [firstIndexExceeding]

/-- C6 witness: for shares `[1/5, 1/2, 1]` and the constant sample `7/20`,
the single produced trip is assigned category index 1 and colour
`[7, 8, 9, 255]`. -/
theorem c6_category_sampling_witness :
    ((getPathTrips rand35 paletteGray pathUnit flowRatios tripDefaults).getD 0 noTrip).foodGroup = 1 ∧
      ((getPathTrips rand35 paletteGray pathUnit flowRatios tripDefaults).getD 0 noTrip).color =
        [7, 8, 9, 255] := by
  have hlen : (getPathTrips rand35 paletteGray pathUnit flowRatios tripDefaults).length = 1 := by
    rw [getPathTrips_some rand35 paletteGray pathUnit flowRatios tripDefaults
      [1/5, 1/2, 1] rfl, List.length_map, List.length_range]
    norm_num [flowRatios, tripDefaults, jsLoopCount_one]
  have h := c6_category_sampling rand35 paletteGray pathUnit flowRatios tripDefaults
    [1/5, 1/2, 1] rfl 0 (by rw [hlen]; norm_num)
  constructor
  · rw [h.1]
    norm_num [rand35, firstIndexExceeding]
  · rw [h.2.1, h.1]
    norm_num [paletteGray]

/-- C9: a path whose coordinate list is empty (for instance the road path of
a flow without route geometry) still yields a positive number of trips when
the flow has category shares, value at least 1, a multiplier at least 1 and
a particle cap at least 1 — and every such trip has an empty waypoint
list. -/
theorem c9_degenerate_path_trips (rand : ℕ → ℚ) (palette : ℕ → ℕ × ℕ × ℕ)
    (path : Path) (flow : Flow) (p : TripParams) (ratios : List ℚ)
    (hc : path.coordinates = []) (hfg : flow.valuesRatiosByFoodGroup = some ratios)
    (hv : 1 ≤ flow.value) (hm : 1 ≤ p.numParticlesMultiplicator)
    (hM : 1 ≤ p.maxParticles) :
    0 < (getPathTrips rand palette path flow p).length ∧
      ∀ t ∈ getPathTrips rand palette path flow p, t.waypoints = [] := by
  constructor
  · rw [getPathTrips_some rand palette path flow p ratios hfg, List.length_map,
      List.length_range]
    have h1 : (1 : ℚ) ≤ min (flow.value * p.numParticlesMultiplicator) p.maxParticles :=
      le_min (by nlinarith) hM
    have h2 := jsLoopCount_mono h1
    rw [jsLoopCount_one] at h2
    omega
  · intro t ht
    rw [getPathTrips_some rand palette path flow p ratios hfg] at ht
    obtain ⟨i, _, rfl⟩ := List.mem_map.mp ht
    exact mkTrip_waypoints_nil _ _ _ _ _ _ _ hc

/-- C9 witness: the road path of a flow without route geometry has empty
coordinates, yet one trip (with empty waypoints) is produced. -/
theorem c9_degenerate_path_trips_witness :
    0 < (getPathTrips randHalf paletteGray
          ((getRoadPaths distFn500 flowRatios).headD noPath) flowRatios tripDefaults).length ∧
      ∀ t ∈ getPathTrips randHalf paletteGray
          ((getRoadPaths distFn500 flowRatios).headD noPath) flowRatios tripDefaults,
        t.waypoints = [] := by
  exact c9_degenerate_path_trips randHalf paletteGray _ flowRatios tripDefaults
    [1/5, 1/2, 1] rfl rfl (by norm_num [flowRatios]) (by norm_num [tripDefaults])
    (by norm_num [tripDefaults])

/-- C2: every trip's waypoint timestamps are non-decreasing in array order,
and each waypoint's timestamp is the trip's start time plus the cumulative
arc-length ratio at that coordinate times the (nonnegative) trip duration —
under the runtime facts that segment distances are nonnegative, the total
distance is positive, random draws lie in `[0, 1)`, and the speed parameters
are in their designed range. -/
theorem c2_trip_timestamps_monotone (rand : ℕ → ℚ) (palette : ℕ → ℕ × ℕ × ℕ)
    (path : Path) (flow : Flow) (p : TripParams)
    (hds : ∀ x ∈ path.distances, 0 ≤ x) (ht : 0 < path.totalDistance)
    (hr : ∀ n, 0 ≤ rand n ∧ rand n < 1)
    (hsp : 0 < p.speedKps) (hh0 : 0 ≤ p.speedKpsHumanize)
    (hh1 : p.speedKpsHumanize < 1) :
    ∀ t ∈ getPathTrips rand palette path flow p,
      List.Chain' (fun u v : Waypoint => u.timestamp ≤ v.timestamp) t.waypoints ∧
      ∃ s δ : ℚ, 0 ≤ δ ∧ ∀ j < t.waypoints.length,
        (t.waypoints.getD j ⟨(0, 0), 0⟩).timestamp =
          s + (Finset.sum (Finset.range j) (fun m => path.distances.getD m 0)) /
              path.totalDistance * δ := by
  intro t htmem
  cases hfg : flow.valuesRatiosByFoodGroup with
  | none =>
    rw [getPathTrips_none rand palette path flow p hfg] at htmem
    simp at htmem
  | some ratios =>
    rw [getPathTrips_some rand palette path flow p ratios hfg] at htmem
    obtain ⟨i, _, rfl⟩ := List.mem_map.mp htmem
    obtain ⟨s, δ, hw, hδeq⟩ := mkTrip_waypoints rand palette path p
      ((p.toTimeStamp - p.fromTimestamp) /
        min (flow.value * p.numParticlesMultiplicator) p.maxParticles) ratios i
    have hδ0 : 0 ≤ δ := by
      rw [hδeq]
      exact le_of_lt (div_pos ht (humanizedSpeed_pos _ _ _ hsp hh0 hh1 (hr (3 * i)).1))
    constructor
    · rw [hw]
      exact tripWaypointsGo_chain path.distances path.totalDistance s δ hds ht hδ0
        path.coordinates 0 0
    · refine ⟨s, δ, hδ0, ?_⟩
      intro j hj
      rw [hw] at hj ⊢
      rw [tripWaypointsGo_length] at hj
      rw [tripWaypointsGo_getD path.distances path.totalDistance s δ
        path.coordinates 0 0 j hj]
      simp only [Nat.zero_add, zero_add]

/-- C2 witness: a concrete two-coordinate path with default trip parameters
and a constant `1/2` random stream satisfies both timestamp properties. -/
theorem c2_trip_timestamps_monotone_witness :
    List.Chain' (fun u v : Waypoint => u.timestamp ≤ v.timestamp)
        ((getPathTrips randHalf paletteGray pathUnit flowRatios tripDefaults).getD
          0 noTrip).waypoints ∧
      ∃ s δ : ℚ, 0 ≤ δ ∧
        ∀ j < ((getPathTrips randHalf paletteGray pathUnit flowRatios
            tripDefaults).getD 0 noTrip).waypoints.length,
          (((getPathTrips randHalf paletteGray pathUnit flowRatios
              tripDefaults).getD 0 noTrip).waypoints.getD j ⟨(0, 0), 0⟩).timestamp =
            s + (Finset.sum (Finset.range j) (fun m => pathUnit.distances.getD m 0)) /
                pathUnit.totalDistance * δ := by
  have hlen : (getPathTrips randHalf paletteGray pathUnit flowRatios tripDefaults).length = 1 := by
    rw [getPathTrips_some randHalf paletteGray pathUnit flowRatios tripDefaults
      [1/5, 1/2, 1] rfl, List.length_map, List.length_range]
    norm_num [flowRatios, tripDefaults, jsLoopCount_one]
  have hmem : (getPathTrips randHalf paletteGray pathUnit flowRatios tripDefaults).getD
      0 noTrip ∈ getPathTrips randHalf paletteGray pathUnit flowRatios tripDefaults := by
    apply getD_zero_mem
    intro hnil
    rw [hnil] at hlen
    simp at hlen
  exact c2_trip_timestamps_monotone randHalf paletteGray pathUnit flowRatios tripDefaults
    (by norm_num [pathUnit]) (by norm_num [pathUnit])
    (fun n => ⟨by norm_num [randHalf], by norm_num [randHalf]⟩)
    (by norm_num [tripDefaults]) (by norm_num [tripDefaults]) (by norm_num [tripDefaults])
    _ hmem

/-- C8: for any flow, `getSelfPath` produces exactly one path, whose
coordinates are the turf circle ring of radius 30 km around the flow's
source sampled at 20 boundary points, with 21 ring coordinates (the first
boundary point repeated at the end) whose first and last entries
coincide. -/
theorem c8_self_loop_closed (dF : Coord → Coord → ℚ)
    (bp : Coord → ℚ → ℕ → Coord) (link : Flow) :
    (getSelfPath dF bp link).length = 1 ∧
      ((getSelfPath dF bp link).headD noPath).coordinates =
        turfCircleRing bp link.source 30 20 ∧
      ((getSelfPath dF bp link).headD noPath).coordinates.length = 21 ∧
      ((getSelfPath dF bp link).headD noPath).coordinates.head? =
        ((getSelfPath dF bp link).headD noPath).coordinates.getLast? := by
  refine ⟨rfl, rfl, ?_, ?_⟩
  · show (turfCircleRing bp link.source 30 20).length = 21
    unfold turfCircleRing
    simp
  · show (turfCircleRing bp link.source 30 20).head? =
      (turfCircleRing bp link.source 30 20).getLast?
    unfold turfCircleRing
    cases hl : (List.range 20).map (bp link.source 30) with
    | nil => simp at hl
    | cons a t =>
      simp only [List.take_succ_cons, List.take_zero]
      rw [List.getLast?_concat]
      rfl

end FoodTwin
